import Mathlib

/-!
Verification of the sippy disk/remote cache subsystem (`pkg/cache`).

The Go sources embedded here:
* `GenKeyFilename`, `ExtractPrefix` — key-to-path hashing (SHA-256 + hex,
  optional human-readable prefix before the digest);
* `Get`, `Set` — the disk cache read and write paths (advisory file lock,
  temp-file writes, atomic renames, metadata sidecar);
* `cleanup` — the expiry sweeper pass over metadata sidecar files;
* the redis remote backend's `Get`/`Set` (fixed namespace prefix, TTL
  forwarded to the store).

Machine words are `Nat` with explicit reduction modulo 2^32 (or 2^64 for the
SHA-256 length field); byte strings are `List Nat`; time instants are `Nat`.
Filesystem and lock state are explicit, and fallible I/O steps take a fault
oracle so that each error exit of the Go code is a reachable branch.
-/

/-! ## SHA-256 (crypto/sha256), over byte lists -/

def w32 : Nat := 4294967296

/-- Rotate a 32-bit word right by `n`. -/
def rotr32 (n x : Nat) : Nat := ((x >>> n) ||| (x <<< (32 - n))) % w32

/-- The round constants of FIPS 180-4, in decimal. -/
def sha256K : List Nat :=
  [1116352408, 1899447441, 3049323471, 3921009573, 961987163,
   1508970993, 2453635748, 2870763221, 3624381080, 310598401,
   607225278, 1426881987, 1925078388, 2162078206, 2614888103,
   3248222580, 3835390401, 4022224774, 264347078, 604807628,
   770255983, 1249150122, 1555081692, 1996064986, 2554220882,
   2821834349, 2952996808, 3210313671, 3336571891, 3584528711,
   113926993, 338241895, 666307205, 773529912, 1294757372,
   1396182291, 1695183700, 1986661051, 2177026350, 2456956037,
   2730485921, 2820302411, 3259730800, 3345764771, 3516065817,
   3600352804, 4094571909, 275423344, 430227734, 506948616,
   659060556, 883997877, 958139571, 1322822218, 1537002063,
   1747873779, 1955562222, 2024104815, 2227730452, 2361852424,
   2428436474, 2756734187, 3204031479, 3329325298]

def sha256H0 : List Nat :=
  [1779033703, 3144134277, 1013904242, 2773480762, 1359893119,
   2600822924, 528734635, 1541459225]

/-- Big-endian 8-byte encoding of the 64-bit message bit length. -/
def lenBytes64 (n : Nat) : List Nat :=
  [n >>> 56 % 256, n >>> 48 % 256, n >>> 40 % 256, n >>> 32 % 256,
   n >>> 24 % 256, n >>> 16 % 256, n >>> 8 % 256, n % 256]

/-- SHA-256 padding: 0x80, zeros to 56 mod 64, then the bit length. -/
def sha256Pad (msg : List Nat) : List Nat :=
  let L := msg.length
  msg ++ [0x80] ++ List.replicate ((64 - ((L + 9) % 64)) % 64) 0
      ++ lenBytes64 ((8 * L) % 2 ^ 64)

/-- Big-endian 32-bit word from four bytes. -/
def word32At (l : List Nat) (i : Nat) : Nat :=
  l.getD (4 * i) 0 * 16777216 + l.getD (4 * i + 1) 0 * 65536 +
    l.getD (4 * i + 2) 0 * 256 + l.getD (4 * i + 3) 0

/-- The 64-entry message schedule of one 64-byte block. -/
def sha256Schedule (block : List Nat) : List Nat :=
  let w16 := (List.range 16).map (word32At block)
  (List.range 48).foldl
    (fun w _ =>
      let n := w.length
      let s0 :=
        (rotr32 7 (w.getD (n - 15) 0)) ^^^ (rotr32 18 (w.getD (n - 15) 0)) ^^^
          (w.getD (n - 15) 0 >>> 3)
      let s1 :=
        (rotr32 17 (w.getD (n - 2) 0)) ^^^ (rotr32 19 (w.getD (n - 2) 0)) ^^^
          (w.getD (n - 2) 0 >>> 10)
      w ++ [(w.getD (n - 16) 0 + s0 + w.getD (n - 7) 0 + s1) % w32])
    w16

/-- One SHA-256 compression step over the running hash `H` (8 words). -/
def sha256Compress (H : List Nat) (block : List Nat) : List Nat :=
  let W := sha256Schedule block
  let step := fun (s : Nat × Nat × Nat × Nat × Nat × Nat × Nat × Nat) (t : Nat) =>
    let (a, b, c, d, e, f, g, h) := s
    let S1 := (rotr32 6 e) ^^^ (rotr32 11 e) ^^^ (rotr32 25 e)
    let ch := (e &&& f) ^^^ ((w32 - 1 - e) &&& g)
    let T1 := (h + S1 + ch + sha256K.getD t 0 + W.getD t 0) % w32
    let S0 := (rotr32 2 a) ^^^ (rotr32 13 a) ^^^ (rotr32 22 a)
    let maj := (a &&& b) ^^^ (a &&& c) ^^^ (b &&& c)
    let T2 := (S0 + maj) % w32
    ((T1 + T2) % w32, a, b, c, (d + T1) % w32, e, f, g)
  let (a, b, c, d, e, f, g, h) :=
    (List.range 64).foldl step
      (H.getD 0 0, H.getD 1 0, H.getD 2 0, H.getD 3 0,
       H.getD 4 0, H.getD 5 0, H.getD 6 0, H.getD 7 0)
  [(H.getD 0 0 + a) % w32, (H.getD 1 0 + b) % w32, (H.getD 2 0 + c) % w32,
   (H.getD 3 0 + d) % w32, (H.getD 4 0 + e) % w32, (H.getD 5 0 + f) % w32,
   (H.getD 6 0 + g) % w32, (H.getD 7 0 + h) % w32]

/-- Split a padded message into `n` blocks of 64 bytes. -/
def toBlocks (l : List Nat) : Nat → List (List Nat)
  | 0 => []
  | n + 1 => l.take 64 :: toBlocks (l.drop 64) n

/-- Big-endian bytes of a 32-bit word. -/
def wordToBytes (w : Nat) : List Nat :=
  [w >>> 24 % 256, w >>> 16 % 256, w >>> 8 % 256, w % 256]

/-- SHA-256 digest (32 bytes) of a byte list: `sha256.Sum256`. -/
def sha256Bytes (msg : List Nat) : List Nat :=
  let padded := sha256Pad msg
  ((toBlocks padded (padded.length / 64)).foldl sha256Compress sha256H0).flatMap
    wordToBytes

/-! ## Hex encoding (encoding/hex) and UTF-8 bytes of a key -/

def hexDigitList : List Char := "0123456789abcdef".data

def hexDigitChar (n : Nat) : Char := hexDigitList.getD n '0'

/-- `hex.EncodeToString` over bytes (each `< 256`). -/
def hexEncode (bs : List Nat) : List Char :=
  bs.flatMap fun b => [hexDigitChar (b / 16), hexDigitChar (b % 16)]

/-- UTF-8 encoding of one character, as `[]byte(string)` produces it. -/
def utf8EncodeChar (c : Char) : List Nat :=
  let n := c.toNat
  if n < 128 then [n]
  else if n < 2048 then [192 ||| (n >>> 6), 128 ||| (n &&& 63)]
  else if n < 65536 then
    [224 ||| (n >>> 12), 128 ||| ((n >>> 6) &&& 63), 128 ||| (n &&& 63)]
  else
    [240 ||| (n >>> 18), 128 ||| ((n >>> 12) &&& 63),
     128 ||| ((n >>> 6) &&& 63), 128 ||| (n &&& 63)]

def utf8Bytes (s : String) : List Nat := s.data.flatMap utf8EncodeChar

/-- Hex digest string of a key: `hex.EncodeToString(sha256.Sum256([]byte(input))[:])`. -/
def sha256Hex (input : String) : String :=
  String.mk (hexEncode (sha256Bytes (utf8Bytes input)))

/-! ## Key-to-path mapping (disk.Cache GenKeyFilename / ExtractPrefix) -/

namespace disk

structure Cache where
  cacheDir : String
deriving DecidableEq

/-- `ExtractPrefix` extracts the prefix from a string before the `~` character,
rendered as `<prefix>-`; empty when the key holds no `~`. -/
def ExtractPrefix (input : String) : String :=
  match input.data.findIdx? (· = '~') with
  | some idx => String.mk (input.data.take idx) ++ "-"
  | none => ""

/-- `GenKeyFilename`: `fmt.Sprintf("%s/%s%s.json", c.cacheDir, ExtractPrefix input, hexStr)`. -/
def GenKeyFilename (c : Cache) (input : String) : String :=
  c.cacheDir ++ "/" ++ ExtractPrefix input ++ sha256Hex input ++ ".json"

/-- `filename[:len(filename)-len(".json")]`. -/
def stripDotJson (s : String) : String :=
  String.mk (s.data.take (s.data.length - 5))

/-- The metadata sidecar path Set derives:
`fmt.Sprintf("%s-metadata.json", filename[:len(filename)-len(".json")])`. -/
def metadataFilenameFor (filename : String) : String :=
  stripDotJson filename ++ "-metadata.json"

/-- The per-key path stem `<cacheDir>/<prefix><hexdigest>`. -/
def keyStem (c : Cache) (k : String) : String :=
  c.cacheDir ++ "/" ++ ExtractPrefix k ++ sha256Hex k

/-! ## Metadata sidecar record and its serialization

`cacheKeyFileMetadata` is marshalled with `json.MarshalIndent` and read back
with `json.Unmarshal`. The JSON wire format is a library detail; it is
modelled by an injective byte encoding with a strict partial decoder, so that
`unmarshalMetadata` fails exactly on byte lists that are not the encoding of a
record — the model of "invalid JSON". -/

structure cacheKeyFileMetadata where
  Key : String
  Filename : String
  Set : Nat
  Expire : Nat
deriving DecidableEq

/-- Unary length marker: `n` ones then a zero. -/
def encNat (n : Nat) : List Nat := List.replicate n 1 ++ [0]

/-- A string field: its length, then its character codes. -/
def encStr (s : String) : List Nat := encNat s.data.length ++ s.data.map Char.toNat

def marshalMetadata (m : cacheKeyFileMetadata) : List Nat :=
  encStr m.Key ++ encStr m.Filename ++ encNat m.Set ++ encNat m.Expire

def parseNat : List Nat → Option (Nat × List Nat)
  | 0 :: rest => some (0, rest)
  | 1 :: rest => (parseNat rest).map fun p => (p.1 + 1, p.2)
  | _ => none

def parseStr (l : List Nat) : Option (String × List Nat) :=
  (parseNat l).bind fun p =>
    if p.1 ≤ p.2.length then
      some (String.mk ((p.2.take p.1).map Char.ofNat), p.2.drop p.1)
    else none

def unmarshalMetadata (l : List Nat) : Option cacheKeyFileMetadata :=
  (parseStr l).bind fun k =>
    (parseStr k.2).bind fun f =>
      (parseNat f.2).bind fun s =>
        (parseNat s.2).bind fun e =>
          if e.2 = [] then some ⟨k.1, f.1, s.1, e.1⟩ else none

/-! ## Filesystem, lock and directory state -/

/-- Association-list store: replace an existing binding or append a new one.
Used both for the disk filesystem (path to bytes) and the redis store. -/
def listPut {β : Type} : List (String × β) → String → β → List (String × β)
  | [], k, v => [(k, v)]
  | e :: t, k, v => if e.1 = k then (k, v) :: t else e :: listPut t k v

def fsRead : List (String × List Nat) → String → Option (List Nat)
  | [], _ => none
  | e :: t, p => if e.1 = p then some e.2 else fsRead t p

def fsRemove : List (String × List Nat) → String → List (String × List Nat)
  | [], _ => []
  | e :: t, p => if e.1 = p then fsRemove t p else e :: fsRemove t p

/-- `flock` opens (and creates, if absent) the file it locks. -/
def fsEnsure (fs : List (String × List Nat)) (p : String) :
    List (String × List Nat) :=
  if (fsRead fs p).isSome then fs else fs ++ [(p, [])]

/-- Shared mutable world of one cache directory: directories, files and the
set of held advisory `flock` locks (named by the locked path, visible across
goroutines and replicas). -/
structure DiskState where
  dirs : List String
  files : List (String × List Nat)
  locks : List String
deriving DecidableEq

/-! ## FileBackend Get (disk.Cache Get) -/

inductive GetErr
  | notFound (path : String)
  | readError (path : String)
deriving DecidableEq

/-- `Get`: compute the path, `os.Stat` it (missing file is the not-found
error), then `os.ReadFile` it (`readFault` injects that I/O failure). The
`ttl` argument is the unused `_ time.Duration` parameter; no lock is taken
and no state is produced. -/
def Get (c : Cache) (readFault : Bool) (st : DiskState) (key : String)
    (ttl : Nat) : Except GetErr (List Nat) :=
  let _ := ttl
  let filename := GenKeyFilename c key
  match fsRead st.files filename with
  | none => .error (.notFound filename)
  | some data => if readFault then .error (.readError filename) else .ok data

/-! ## FileBackend Set (disk.Cache Set) -/

/-- One flag per fallible I/O step of `Set`; `true` makes that step fail. -/
structure SetFaults where
  mkdirFail : Bool
  lockSysFail : Bool
  writeTmpDataFail : Bool
  writeTmpMetaFail : Bool
  renameDataFail : Bool
  renameMetaFail : Bool
deriving DecidableEq

def noSetFaults : SetFaults := ⟨false, false, false, false, false, false⟩

inductive SetErr
  | dirCreateFailed
  | lockSysError
  | lockNotAcquired
  | tmpDataWriteFailed
  | tmpMetaWriteFailed
  | renameDataFailed
  | renameMetaFailed
deriving DecidableEq

/-- `Set`, step for step from the source: ensure the cache directory, build
the metadata record, `flock.New(filename).TryLock()` (try-once; failure to
acquire is an immediate error; the deferred `Unlock` runs on every later
exit), write content and metadata to `.tmp` files, then rename each over its
final path. `now` is `time.Now()` at entry (`before`). -/
def Set (c : Cache) (fl : SetFaults) (now : Nat) (st : DiskState) (key : String)
    (content : List Nat) (duration : Nat) : DiskState × Option SetErr :=
  let filename := GenKeyFilename c key
  -- create our cache directory if it doesn't exist
  if c.cacheDir ∈ st.dirs then
    setLocked c fl now { st with dirs := st.dirs } key content duration filename
  else if fl.mkdirFail then (st, some .dirCreateFailed)
  else setLocked c fl now { st with dirs := c.cacheDir :: st.dirs } key content
    duration filename
where
  /-- The body of `Set` from the metadata record on (directory now exists). -/
  setLocked (c : Cache) (fl : SetFaults) (now : Nat) (st : DiskState)
      (key : String) (content : List Nat) (duration : Nat) (filename : String) :
      DiskState × Option SetErr :=
    let metadata : cacheKeyFileMetadata :=
      { Key := key, Filename := filename, Set := now, Expire := now + duration }
    let metadataFilename := metadataFilenameFor filename
    -- file lock to prevent multiple goroutines or another sippy replica from
    -- conflicting: flock.New(filename); TryLock opens/creates the file first
    if fl.lockSysFail then (st, some .lockSysError)
    else
      let st := { st with files := fsEnsure st.files filename }
      if filename ∈ st.locks then (st, some .lockNotAcquired)
      else
        let st := { st with locks := filename :: st.locks }
        -- defer lock.Unlock(): every exit below releases the lock
        let unlock := fun (s : DiskState) =>
          { s with locks := s.locks.erase filename }
        let metadataContent := marshalMetadata metadata
        let tempFilename := filename ++ ".tmp"
        if fl.writeTmpDataFail then (unlock st, some .tmpDataWriteFailed)
        else
          let st := { st with files := listPut st.files tempFilename content }
          let tempMetadataFilename := metadataFilename ++ ".tmp"
          if fl.writeTmpMetaFail then (unlock st, some .tmpMetaWriteFailed)
          else
            let st :=
              { st with
                files := listPut st.files tempMetadataFilename metadataContent }
            -- Atomically rename temporary files to their final names
            if fl.renameDataFail then (unlock st, some .renameDataFailed)
            else
              let st :=
                { st with
                  files := listPut (fsRemove st.files tempFilename) filename
                    content }
              if fl.renameMetaFail then (unlock st, some .renameMetaFailed)
              else
                let st :=
                  { st with
                    files := listPut (fsRemove st.files tempMetadataFilename)
                      metadataFilename metadataContent }
                (unlock st, none)

/-! ## ExpirySweeper (disk.Cache cleanup)

`cleanup` walks the directory listing, examines every `-metadata.json`
sidecar, and deletes expired entries under a per-entry `flock` on
`metadata.Filename + ".lock"`. The `defer` that unlocks and removes each
lock sentinel is registered inside the loop, so Go runs all of them, last
acquired first, when `cleanup` returns — not between entries. The embedding
keeps an event trace so ordering is observable. -/

/-- Per-path fault oracle for the sweeper's fallible I/O. -/
structure SweepFaults where
  readDirFail : Bool
  readFileFail : String → Bool
  lockSysFail : String → Bool
  removeFail : String → Bool

def noSweepFaults : SweepFaults :=
  ⟨false, fun _ => false, fun _ => false, fun _ => false⟩

inductive SweepEv
  | examined (name : String)
  | readFailed (path : String)
  | parseFailed (path : String)
  | notExpired (path : String)
  | lockError (path : String)
  | skippedLocked (path : String)
  | removedData (path : String) (ok : Bool)
  | removedMeta (path : String) (ok : Bool)
  | released (path : String)
  | removedLockFile (path : String) (ok : Bool)
deriving DecidableEq

/-- The deferred-release events: `released` and `removedLockFile` are emitted
only by the deferred unlock/remove actions, never inside the loop body. -/
def isRelease : SweepEv → Bool
  | .released _ => true
  | .removedLockFile _ _ => true
  | _ => false

/-- Loop state: world, event trace, and the deferred unlock-and-remove
actions (lock sentinel paths, head = registered last). -/
structure SweepAcc where
  st : DiskState
  evs : List SweepEv
  defers : List String
deriving DecidableEq

/-- `os.Remove`: succeeds when the file exists and no fault fires. -/
def tryRemove (fl : SweepFaults) (fs : List (String × List Nat)) (p : String) :
    List (String × List Nat) × Bool :=
  if (fsRead fs p).isSome ∧ ¬ fl.removeFail p then (fsRemove fs p, true)
  else (fs, false)

/-- `strings.HasSuffix`. -/
def hasSuffix (s suffix : String) : Bool := suffix.data.isSuffixOf s.data

/-- One iteration of the sweep loop over a directory entry `name`. -/
def cleanupEntry (c : Cache) (fl : SweepFaults) (now : Nat) (acc : SweepAcc)
    (name : String) : SweepAcc :=
  if hasSuffix name "-metadata.json" then
    let metadataFilename := c.cacheDir ++ "/" ++ name
    let acc := { acc with evs := acc.evs ++ [SweepEv.examined name] }
    match fsRead acc.st.files metadataFilename with
    | none => { acc with evs := acc.evs ++ [SweepEv.readFailed metadataFilename] }
    | some metadataContent =>
      if fl.readFileFail metadataFilename then
        { acc with evs := acc.evs ++ [SweepEv.readFailed metadataFilename] }
      else
        match unmarshalMetadata metadataContent with
        | none => { acc with evs := acc.evs ++ [SweepEv.parseFailed metadataFilename] }
        | some metadata =>
          -- if expired, delete cache file and metadata file
          if now > metadata.Expire then
            let cacheFile := metadata.Filename
            let lockFile := cacheFile ++ ".lock"
            if fl.lockSysFail lockFile then
              { acc with evs := acc.evs ++ [SweepEv.lockError cacheFile] }
            else
              let files := fsEnsure acc.st.files lockFile
              if lockFile ∈ acc.st.locks then
                { acc with
                  st := { acc.st with files := files }
                  evs := acc.evs ++ [SweepEv.skippedLocked cacheFile] }
              else
                -- lock acquired; defer (unlock + remove lock file) registered
                let (fs1, ok1) := tryRemove fl files cacheFile
                let (fs2, ok2) := tryRemove fl fs1 metadataFilename
                { st :=
                    { acc.st with
                      files := fs2
                      locks := lockFile :: acc.st.locks }
                  evs := acc.evs ++
                    [SweepEv.removedData cacheFile ok1, SweepEv.removedMeta metadataFilename ok2]
                  defers := lockFile :: acc.defers }
          else { acc with evs := acc.evs ++ [SweepEv.notExpired metadataFilename] }
  else acc

/-- The deferred actions, run when `cleanup` returns (LIFO): `Unlock`, then
`os.Remove` of the lock sentinel. -/
def runDefers (fl : SweepFaults) (acc : DiskState × List SweepEv) :
    List String → DiskState × List SweepEv
  | [] => acc
  | lf :: rest =>
    let st := { acc.1 with locks := acc.1.locks.erase lf }
    let (fs, ok) := tryRemove fl st.files lf
    runDefers fl
      ({ st with files := fs },
        acc.2 ++ [SweepEv.released lf, SweepEv.removedLockFile lf ok]) rest

/-- `os.ReadDir(c.cacheDir)` snapshot: base names of the files directly in
the cache directory. -/
def dirList (c : Cache) (fs : List (String × List Nat)) : List String :=
  fs.filterMap fun e =>
    if (c.cacheDir ++ "/").data.isPrefixOf e.1.data then
      let rest := e.1.data.drop (c.cacheDir.data.length + 1)
      if rest.contains '/' then none else some (String.mk rest)
    else none

/-- One sweeper tick (`cleanup`): list the directory, run the loop, then the
deferred unlock/remove actions. -/
def cleanup (c : Cache) (fl : SweepFaults) (now : Nat) (st : DiskState) :
    DiskState × List SweepEv :=
  if fl.readDirFail then (st, [])
  else
    let acc := (dirList c st.files).foldl (cleanupEntry c fl now) ⟨st, [], []⟩
    runDefers fl (acc.st, acc.evs) acc.defers

end disk

/-! ## RemoteBackend (redis.Cache) -/

namespace redis

/-- `const prefix = "_SIPPY_"` (the fixed namespace prefix). -/
def redisPrefix : String := "_SIPPY_"

/-- The remote store: key to (bytes, TTL as the store received it). -/
structure RedisState where
  store : List (String × (List Nat × Nat))
deriving DecidableEq

/-- `c.client.Get(prefix + key).Bytes()`: raw bytes, or the store's
not-found error. -/
def lookup : List (String × (List Nat × Nat)) → String → Option (List Nat × Nat)
  | [], _ => none
  | e :: t, k => if e.1 = k then some e.2 else lookup t k

def Get (st : RedisState) (key : String) : Except disk.GetErr (List Nat) :=
  match lookup st.store (redisPrefix ++ key) with
  | some v => .ok v.1
  | none => .error (.notFound (redisPrefix ++ key))

/-- `c.client.Set(prefix+key, content, duration)`: store the bytes under the
prefixed key with the TTL forwarded unchanged. -/
def Set (st : RedisState) (key : String) (content : List Nat)
    (duration : Nat) : RedisState :=
  ⟨disk.listPut st.store (redisPrefix ++ key) (content, duration)⟩

end redis

deriving instance DecidableEq for Except

/-! ## Generic helper lemmas -/

namespace disk

theorem fsRead_listPut_same (fs : List (String × List Nat)) (p : String)
    (v : List Nat) : fsRead (listPut fs p v) p = some v := by
  induction fs with
  | nil => simp [listPut, fsRead]
  | cons e t ih =>
    by_cases h : e.1 = p <;> simp [listPut, fsRead, h, ih]

theorem fsRead_listPut_other (fs : List (String × List Nat)) (p q : String)
    (v : List Nat) (h : p ≠ q) : fsRead (listPut fs q v) p = fsRead fs p := by
  induction fs with
  | nil => simp [listPut, fsRead, Ne.symm h]
  | cons e t ih =>
    by_cases he : e.1 = q
    · by_cases hp : e.1 = p
      · exact absurd (hp.symm.trans he) h
      · simp [listPut, he, fsRead, Ne.symm h, hp]
    · by_cases hp : e.1 = p <;> simp [listPut, he, fsRead, hp, ih, h]

theorem fsRead_fsRemove_other (fs : List (String × List Nat)) (p q : String)
    (h : p ≠ q) : fsRead (fsRemove fs q) p = fsRead fs p := by
  induction fs with
  | nil => simp [fsRemove]
  | cons e t ih =>
    by_cases he : e.1 = q
    · have hp : e.1 ≠ p := by rw [he]; exact Ne.symm h
      simp [fsRemove, he, fsRead, hp, ih, Ne.symm h]
    · by_cases hp : e.1 = p <;> simp [fsRemove, he, fsRead, hp, ih, h]

theorem fsRead_fsRemove_same (fs : List (String × List Nat)) (p : String) :
    fsRead (fsRemove fs p) p = none := by
  induction fs with
  | nil => simp [fsRemove, fsRead]
  | cons e t ih =>
    by_cases he : e.1 = p <;> simp [fsRemove, fsRead, he, ih]

theorem fsRead_append_single_other (fs : List (String × List Nat))
    (p q : String) (v : List Nat) (h : p ≠ q) :
    fsRead (fs ++ [(q, v)]) p = fsRead fs p := by
  induction fs with
  | nil => simp [fsRead, Ne.symm h]
  | cons e t ih =>
    by_cases hp : e.1 = p <;> simp [fsRead, hp, ih]

theorem fsEnsure_of_present (fs : List (String × List Nat)) (p : String)
    (h : (fsRead fs p).isSome) : fsEnsure fs p = fs := by
  simp [fsEnsure, h]

theorem fsRead_fsEnsure_other (fs : List (String × List Nat)) (p q : String)
    (h : p ≠ q) : fsRead (fsEnsure fs q) p = fsRead fs p := by
  unfold fsEnsure
  split
  · rfl
  · exact fsRead_append_single_other fs p q [] h

theorem fsRead_fsEnsure_self (fs : List (String × List Nat)) (p : String) :
    (fsRead (fsEnsure fs p) p).isSome := by
  unfold fsEnsure
  split
  · assumption
  · rename_i hn
    induction fs with
    | nil => simp [fsRead]
    | cons e t ih =>
      by_cases hp : e.1 = p <;> simp_all [fsRead]

end disk

/-- Two strings of different lengths differ. -/
theorem String.ne_of_length_ne {s t : String} (h : s.length ≠ t.length) :
    s ≠ t := fun e => h (by rw [e])

/-! ## Shape of the digest and of the generated paths -/

theorem sha256Compress_length (H block : List Nat) :
    (sha256Compress H block).length = 8 := rfl

theorem foldl_compress_length (bs : List (List Nat)) (H : List Nat)
    (h : H.length = 8) : (bs.foldl sha256Compress H).length = 8 := by
  induction bs generalizing H with
  | nil => simpa
  | cons b t ih => exact ih _ (sha256Compress_length H b)

theorem flatMap_wordToBytes_length (l : List Nat) :
    (l.flatMap wordToBytes).length = 4 * l.length := by
  induction l with
  | nil => simp
  | cons w t ih => simp [wordToBytes, ih]; omega

theorem sha256Bytes_length (msg : List Nat) : (sha256Bytes msg).length = 32 := by
  unfold sha256Bytes
  rw [flatMap_wordToBytes_length, foldl_compress_length _ _ (by simp [sha256H0])]

theorem sha256Bytes_lt (msg : List Nat) : ∀ b ∈ sha256Bytes msg, b < 256 := by
  intro b hb
  unfold sha256Bytes at hb
  rw [List.mem_flatMap] at hb
  obtain ⟨w, _, hw⟩ := hb
  simp only [wordToBytes, List.mem_cons, List.not_mem_nil, or_false] at hw
  rcases hw with h | h | h | h <;> subst h <;> exact Nat.mod_lt _ (by norm_num)

theorem hexEncode_length (bs : List Nat) : (hexEncode bs).length = 2 * bs.length := by
  induction bs with
  | nil => simp [hexEncode]
  | cons b t ih => simp [hexEncode] at ih ⊢; omega

theorem hexDigitChar_mem (n : Nat) (h : n < 16) : hexDigitChar n ∈ hexDigitList := by
  interval_cases n <;> decide

theorem hexEncode_mem (bs : List Nat) (hlt : ∀ b ∈ bs, b < 256) :
    ∀ ch ∈ hexEncode bs, ch ∈ hexDigitList := by
  intro ch hch
  unfold hexEncode at hch
  rw [List.mem_flatMap] at hch
  obtain ⟨b, hb, h⟩ := hch
  simp only [List.mem_cons, List.not_mem_nil, or_false] at h
  rcases h with h | h <;> subst h
  · exact hexDigitChar_mem _ (by have := hlt b hb; omega)
  · exact hexDigitChar_mem _ (Nat.mod_lt _ (by norm_num))

theorem sha256Hex_length (s : String) : (sha256Hex s).data.length = 64 := by
  simp [sha256Hex, hexEncode_length, sha256Bytes_length]

theorem sha256Hex_mem (s : String) :
    ∀ ch ∈ (sha256Hex s).data, ch ∈ hexDigitList := by
  simpa [sha256Hex] using hexEncode_mem _ (sha256Bytes_lt (utf8Bytes s))

namespace disk

theorem genKey_eq_stem (c : Cache) (k : String) :
    GenKeyFilename c k = keyStem c k ++ ".json" := rfl

theorem mk_data (s : String) : String.mk s.data = s := rfl

theorem stripDotJson_append (t : String) :
    stripDotJson (t ++ ".json") = t := by
  apply String.ext
  simp [stripDotJson, String.data_append]

theorem metaFor_genKey (c : Cache) (k : String) :
    metadataFilenameFor (GenKeyFilename c k) = keyStem c k ++ "-metadata.json" := by
  rw [metadataFilenameFor, genKey_eq_stem, stripDotJson_append]

theorem length_genKey (c : Cache) (k : String) :
    (GenKeyFilename c k).length = (keyStem c k).length + 5 := by
  rw [genKey_eq_stem, String.length_append]
  rfl

theorem length_metaFor (c : Cache) (k : String) :
    (metadataFilenameFor (GenKeyFilename c k)).length = (keyStem c k).length + 14 := by
  rw [metaFor_genKey, String.length_append]
  rfl

theorem genKey_ne_meta (c : Cache) (k : String) :
    GenKeyFilename c k ≠ metadataFilenameFor (GenKeyFilename c k) :=
  String.ne_of_length_ne (by rw [length_genKey, length_metaFor]; omega)

theorem genKey_ne_tmp (c : Cache) (k : String) :
    GenKeyFilename c k ≠ GenKeyFilename c k ++ ".tmp" :=
  String.ne_of_length_ne (by
    rw [String.length_append]
    have h4 : ".tmp".length = 4 := rfl
    omega)

theorem genKey_ne_metaTmp (c : Cache) (k : String) :
    GenKeyFilename c k ≠ metadataFilenameFor (GenKeyFilename c k) ++ ".tmp" :=
  String.ne_of_length_ne (by
    rw [String.length_append, length_genKey, length_metaFor]
    have h4 : ".tmp".length = 4 := rfl
    omega)

theorem meta_ne_tmp (c : Cache) (k : String) :
    metadataFilenameFor (GenKeyFilename c k) ≠ GenKeyFilename c k ++ ".tmp" :=
  String.ne_of_length_ne (by
    rw [String.length_append, length_genKey, length_metaFor]
    have h4 : ".tmp".length = 4 := rfl
    omega)

theorem meta_ne_metaTmp (c : Cache) (k : String) :
    metadataFilenameFor (GenKeyFilename c k) ≠
      metadataFilenameFor (GenKeyFilename c k) ++ ".tmp" :=
  String.ne_of_length_ne (by
    rw [String.length_append]
    have h4 : ".tmp".length = 4 := rfl
    omega)

end disk

/-! ## Suffix arithmetic -/

theorem suffix_split {α : Type} (s l m : List α) (h : s <:+ l ++ m)
    (hm : m.length ≤ s.length) : ∃ s2, s = s2 ++ m ∧ s2 <:+ l := by
  obtain ⟨t, ht⟩ := h
  have hsplit := List.take_append_drop (s.length - m.length) s
  have hdl : (s.drop (s.length - m.length)).length = m.length := by
    rw [List.length_drop]
    omega
  have ht2 : (t ++ s.take (s.length - m.length)) ++ s.drop (s.length - m.length)
      = l ++ m := by
    rw [List.append_assoc, hsplit]
    exact ht
  obtain ⟨h1, h2⟩ := List.append_inj' ht2 (by rw [hdl])
  exact ⟨s.take (s.length - m.length), by rw [← h2, hdl]; exact hsplit.symm, ⟨t, h1⟩⟩

theorem suffix_of_suffix_append {α : Type} (s l m : List α) (h : s <:+ l ++ m)
    (hs : s.length ≤ m.length) : s <:+ m := by
  obtain ⟨t, ht⟩ := h
  have hlen : t.length + s.length = l.length + m.length := by
    have := congrArg List.length ht
    simpa using this
  have hll : l.length ≤ t.length := by omega
  have ht2 : l ++ (t.drop l.length ++ s) = l ++ m := by
    have : (t.take l.length ++ t.drop l.length) ++ s = l ++ m := by
      rw [List.take_append_drop]
      exact ht
    rw [List.append_assoc] at this
    obtain ⟨h1, h2⟩ := List.append_inj this
      (by rw [List.length_take]; omega)
    rw [h1] at this
    exact this
  exact ⟨t.drop l.length, List.append_cancel_left ht2⟩

/-- A list ending in 64 hexadecimal characters and `".json"` cannot end in
`"-metadata.json"`: the character `m` is not a hex digit. -/
theorem hex_json_not_metadata_suffix (pre hex : List Char)
    (hlen : hex.length = 64) (hhex : ∀ ch ∈ hex, ch ∈ hexDigitList) :
    ¬ ("-metadata.json".data <:+ pre ++ hex ++ ".json".data) := by
  intro h
  rw [List.append_assoc, ← List.append_assoc] at h
  obtain ⟨s2, hs2, hsuf⟩ :=
    suffix_split "-metadata.json".data (pre ++ hex) ".json".data h (by decide)
  have hl2 : s2.length = 9 := by
    have := congrArg List.length hs2
    simp at this
    omega
  have hs2' : s2 = "-metadata".data := by
    have : ("-metadata.json".data).take 9 = s2 := by
      rw [hs2]
      exact List.take_left' hl2
    rw [← this]
    decide
  subst hs2'
  have h2 := suffix_of_suffix_append _ pre hex hsuf (by rw [hlen]; decide)
  have hm := hhex 'm' (h2.subset (by decide))
  exact absurd hm (by decide)

namespace disk

theorem hasSuffix_iff (s t : String) : hasSuffix s t = true ↔ t.data <:+ s.data := by
  simp [hasSuffix, List.isSuffixOf_iff_suffix]

theorem genKey_data (c : Cache) (k : String) :
    (GenKeyFilename c k).data =
      (c.cacheDir.data ++ "/".data ++ (ExtractPrefix k).data) ++
        (sha256Hex k).data ++ ".json".data := by
  simp only [GenKeyFilename, String.data_append]

theorem genKey_not_metadata_suffix (c : Cache) (k : String) :
    hasSuffix (GenKeyFilename c k) "-metadata.json" = false := by
  rw [Bool.eq_false_iff]
  intro h
  rw [hasSuffix_iff, genKey_data] at h
  exact hex_json_not_metadata_suffix _ _ (sha256Hex_length k) (sha256Hex_mem k) h

theorem genKey_basename (c : Cache) (k : String) :
    (GenKeyFilename c k).data.drop (c.cacheDir.length + 1) =
      (ExtractPrefix k).data ++ (sha256Hex k).data ++ ".json".data := by
  rw [genKey_data]
  rw [show (c.cacheDir.data ++ "/".data ++ (ExtractPrefix k).data) ++
        (sha256Hex k).data ++ ".json".data =
      (c.cacheDir.data ++ "/".data) ++
        ((ExtractPrefix k).data ++ ((sha256Hex k).data ++ ".json".data)) from by
    simp [List.append_assoc]]
  rw [List.drop_left' (by simp), List.append_assoc]

theorem genKey_basename_not_metadata_suffix (c : Cache) (k : String) :
    hasSuffix (String.mk ((GenKeyFilename c k).data.drop (c.cacheDir.length + 1)))
      "-metadata.json" = false := by
  rw [Bool.eq_false_iff]
  intro h
  rw [hasSuffix_iff] at h
  have h2 : "-metadata.json".data <:+
      (GenKeyFilename c k).data.drop (c.cacheDir.length + 1) := h
  rw [genKey_basename] at h2
  exact hex_json_not_metadata_suffix _ _ (sha256Hex_length k) (sha256Hex_mem k) h2

theorem metaFor_metadata_suffix (c : Cache) (k : String) :
    hasSuffix (metadataFilenameFor (GenKeyFilename c k)) "-metadata.json" = true := by
  rw [hasSuffix_iff, metaFor_genKey, String.data_append]
  exact List.suffix_append _ _

theorem cleanupEntry_skips_nonmetadata (c : Cache) (fl : SweepFaults) (now : Nat)
    (acc : SweepAcc) (name : String)
    (h : hasSuffix name "-metadata.json" = false) :
    cleanupEntry c fl now acc name = acc := by
  simp [cleanupEntry, h]

end disk

namespace disk

/-- C4: `GenKeyFilename` is a pure, deterministic function of the cache
directory and the key (same key, same path); for `"teamA~jobXYZ"` the path is
the cache dir, a slash, the literal prefix `teamA-` immediately before the
64-character hex digest segment, then `".json"`; for `"no-separator-key"`
(no `~` separator) the prefix is the empty string. -/
theorem c4_prefix_derivation :
    (∀ c1 c2 : Cache, ∀ k : String, c1.cacheDir = c2.cacheDir →
        GenKeyFilename c1 k = GenKeyFilename c2 k) ∧
    (∀ c : Cache, GenKeyFilename c "teamA~jobXYZ" =
        c.cacheDir ++ "/" ++ "teamA-" ++ sha256Hex "teamA~jobXYZ" ++ ".json") ∧
    ExtractPrefix "no-separator-key" = "" ∧
    (∀ c : Cache, GenKeyFilename c "no-separator-key" =
        c.cacheDir ++ "/" ++ "" ++ sha256Hex "no-separator-key" ++ ".json") ∧
    (∀ k : String, (sha256Hex k).data.length = 64 ∧
        ∀ ch ∈ (sha256Hex k).data, ch ∈ hexDigitList) := by
  refine ⟨fun c1 c2 k h => by simp [GenKeyFilename, h], fun c => ?_, by decide,
    fun c => ?_, fun k => ⟨sha256Hex_length k, sha256Hex_mem k⟩⟩
  · rw [GenKeyFilename, (by decide : ExtractPrefix "teamA~jobXYZ" = "teamA-")]
  · rw [GenKeyFilename, (by decide : ExtractPrefix "no-separator-key" = "")]

theorem c4_prefix_derivation_witness :
    GenKeyFilename ⟨"/tmp/sippycache"⟩ "teamA~jobXYZ" =
      "/tmp/sippycache" ++ "/" ++ "teamA-" ++ sha256Hex "teamA~jobXYZ" ++ ".json" ∧
    GenKeyFilename ⟨"/tmp/sippycache"⟩ "k" = GenKeyFilename ⟨"/tmp/sippycache"⟩ "k" :=
  ⟨c4_prefix_derivation.2.1 ⟨"/tmp/sippycache"⟩,
   c4_prefix_derivation.1 ⟨"/tmp/sippycache"⟩ ⟨"/tmp/sippycache"⟩ "k" rfl⟩

/-- C10: every data filename is 64 hex characters then `".json"` (after the
cache dir and optional readable prefix) and so never ends in
`"-metadata.json"` — neither as a full path nor as the base name the sweeper
lists — while every metadata filename written by `Set` does end in
`"-metadata.json"`; the sweeper's suffix filter therefore skips (examines,
parses and deletes nothing of) any directory entry without that suffix. -/
theorem c10_metadata_suffix_separation (c : Cache) (k : String) :
    ((GenKeyFilename c k).data =
        (c.cacheDir.data ++ "/".data ++ (ExtractPrefix k).data) ++
          (sha256Hex k).data ++ ".json".data ∧
      (sha256Hex k).data.length = 64 ∧
      ∀ ch ∈ (sha256Hex k).data, ch ∈ hexDigitList) ∧
    hasSuffix (GenKeyFilename c k) "-metadata.json" = false ∧
    hasSuffix (String.mk ((GenKeyFilename c k).data.drop (c.cacheDir.length + 1)))
      "-metadata.json" = false ∧
    hasSuffix (metadataFilenameFor (GenKeyFilename c k)) "-metadata.json" = true ∧
    (∀ fl now acc name, hasSuffix name "-metadata.json" = false →
      cleanupEntry c fl now acc name = acc) :=
  ⟨⟨genKey_data c k, sha256Hex_length k, sha256Hex_mem k⟩,
   genKey_not_metadata_suffix c k, genKey_basename_not_metadata_suffix c k,
   metaFor_metadata_suffix c k,
   fun fl now acc name h => cleanupEntry_skips_nonmetadata c fl now acc name h⟩

theorem c10_metadata_suffix_separation_witness :
    hasSuffix (GenKeyFilename ⟨"/tmp/sippycache"⟩ "k") "-metadata.json" = false ∧
    cleanupEntry ⟨"/tmp/sippycache"⟩ noSweepFaults 3 ⟨⟨[], [], []⟩, [], []⟩
      "x.json" = ⟨⟨[], [], []⟩, [], []⟩ :=
  ⟨(c10_metadata_suffix_separation ⟨"/tmp/sippycache"⟩ "k").2.1,
   (c10_metadata_suffix_separation ⟨"/tmp/sippycache"⟩ "k").2.2.2.2 noSweepFaults 3
     ⟨⟨[], [], []⟩, [], []⟩ "x.json" (by decide)⟩

end disk

theorem string_append_left_cancel {a b c : String} (h : a ++ b = a ++ c) :
    b = c := by
  apply String.ext
  have h2 := congrArg String.data h
  simp only [String.data_append] at h2
  exact List.append_cancel_left h2

namespace disk

/-- C5: `Get` computes the path with `GenKeyFilename`; it fails with the
not-found error exactly when no data file exists at that path; when the file
exists (and the read does not fault) it returns the file's full contents.
The `ttl` argument is ignored, and `Get` consults no lock state and performs
no mutation (it is a pure function of the filesystem). -/
theorem c5_get_semantics (c : Cache) (st : DiskState) (key : String)
    (ttl t1 t2 : Nat) (rf : Bool) (L : List String) :
    (Get c rf st key ttl = .error (.notFound (GenKeyFilename c key)) ↔
      fsRead st.files (GenKeyFilename c key) = none) ∧
    (∀ p, fsRead st.files (GenKeyFilename c key) = some p →
      Get c false st key ttl = .ok p) ∧
    Get c rf st key t1 = Get c rf st key t2 ∧
    Get c rf { st with locks := L } key ttl = Get c rf st key ttl := by
  refine ⟨?_, ?_, rfl, rfl⟩
  · unfold Get
    cases h : fsRead st.files (GenKeyFilename c key) with
    | none => simp [h]
    | some p => cases rf <;> simp [h]
  · intro p hp
    simp [Get, hp]

theorem c5_get_semantics_witness :
    Get ⟨"/tmp/sippycache"⟩ false
      ⟨["/tmp/sippycache"],
        [(GenKeyFilename ⟨"/tmp/sippycache"⟩ "k", [5, 6])], []⟩ "k" 9 =
      .ok [5, 6] :=
  (c5_get_semantics ⟨"/tmp/sippycache"⟩
    ⟨["/tmp/sippycache"], [(GenKeyFilename ⟨"/tmp/sippycache"⟩ "k", [5, 6])], []⟩
    "k" 9 9 9 false []).2.1 [5, 6] (by simp [fsRead])

end disk

namespace redis

theorem lookup_listPut_same (l : List (String × (List Nat × Nat)))
    (k : String) (v : List Nat × Nat) :
    lookup (disk.listPut l k v) k = some v := by
  induction l with
  | nil => simp [disk.listPut, lookup]
  | cons e t ih =>
    by_cases h : e.1 = k <;> simp [disk.listPut, lookup, h, ih]

theorem lookup_listPut_other (l : List (String × (List Nat × Nat)))
    (k q : String) (v : List Nat × Nat) (h : k ≠ q) :
    lookup (disk.listPut l q v) k = lookup l k := by
  induction l with
  | nil => simp [disk.listPut, lookup, Ne.symm h]
  | cons e t ih =>
    by_cases he : e.1 = q
    · by_cases hk : e.1 = k
      · exact absurd (hk.symm.trans he) h
      · simp [disk.listPut, he, lookup, Ne.symm h, hk]
    · by_cases hk : e.1 = k <;> simp [disk.listPut, he, lookup, hk, ih, h]

end redis

/-- C9: the remote backend namespaces the key with the same fixed prefix in
both `Get` and `Set` (a `Set` then `Get` of one key address the same remote
key, returning the stored bytes); `Set` hands the TTL unchanged to the store
and touches no other key (no local lock or sweeper state exists for this
backend); `Get` returns the raw stored bytes, or the not-found error exactly
when the prefixed key is absent. -/
theorem c9_remote_backend (st : redis.RedisState) (key key2 : String)
    (content : List Nat) (d : Nat) :
    redis.Get (redis.Set st key content d) key = .ok content ∧
    redis.lookup (redis.Set st key content d).store
      (redis.redisPrefix ++ key) = some (content, d) ∧
    (key2 ≠ key → redis.lookup (redis.Set st key content d).store
        (redis.redisPrefix ++ key2) =
      redis.lookup st.store (redis.redisPrefix ++ key2)) ∧
    (∀ bs t, redis.lookup st.store (redis.redisPrefix ++ key) = some (bs, t) →
      redis.Get st key = .ok bs) ∧
    (redis.lookup st.store (redis.redisPrefix ++ key) = none →
      redis.Get st key = .error (.notFound (redis.redisPrefix ++ key))) := by
  refine ⟨?_, ?_, ?_, ?_, ?_⟩
  · unfold redis.Get redis.Set
    rw [redis.lookup_listPut_same]
  · exact redis.lookup_listPut_same st.store _ _
  · intro h
    exact redis.lookup_listPut_other st.store _ _ _
      (fun e => h (string_append_left_cancel e))
  · intro bs t h
    unfold redis.Get
    rw [h]
  · intro h
    unfold redis.Get
    rw [h]

theorem c9_remote_backend_witness :
    redis.Get (redis.Set ⟨[]⟩ "k1" [3, 4] 60) "k1" = .ok [3, 4] ∧
    redis.lookup (redis.Set ⟨[]⟩ "k1" [3, 4] 60).store
      (redis.redisPrefix ++ "k2") = none :=
  ⟨(c9_remote_backend ⟨[]⟩ "k1" "k2" [3, 4] 60).1,
   (c9_remote_backend ⟨[]⟩ "k1" "k2" [3, 4] 60).2.2.1 (by decide) |>.trans (by decide)⟩

/-! ## Behavior of Set: lock discipline, success and error effects -/

set_option maxHeartbeats 1000000
set_option maxRecDepth 100000

namespace disk

theorem Set_preserves_locks (c : Cache) (fl : SetFaults) (now : Nat)
    (st : DiskState) (key : String) (content : List Nat) (d : Nat) :
    (Set c fl now st key content d).1.locks = st.locks := by
  unfold Set Set.setLocked
  repeat' split
  all_goals simp [List.erase_cons_head]
  all_goals split <;> rfl

theorem Set_err_reads (c : Cache) (fl : SetFaults) (now : Nat) (st : DiskState)
    (key : String) (content : List Nat) (d : Nat) :
    ((Set c fl now st key content d).2 ≠ none →
      fsRead (Set c fl now st key content d).1.files
          (metadataFilenameFor (GenKeyFilename c key)) =
        fsRead st.files (metadataFilenameFor (GenKeyFilename c key))) ∧
    ((Set c fl now st key content d).2 ≠ none →
      (Set c fl now st key content d).2 ≠ some .renameMetaFailed →
      (fsRead st.files (GenKeyFilename c key)).isSome →
      fsRead (Set c fl now st key content d).1.files (GenKeyFilename c key) =
        fsRead st.files (GenKeyFilename c key)) ∧
    ((Set c fl now st key content d).2 = some .renameMetaFailed →
      fsRead (Set c fl now st key content d).1.files (GenKeyFilename c key) =
        some content) := by
  have n1 := genKey_ne_meta c key
  have n2 := genKey_ne_tmp c key
  have n3 := genKey_ne_metaTmp c key
  have n4 := meta_ne_tmp c key
  have n5 := meta_ne_metaTmp c key
  unfold Set Set.setLocked
  repeat' split
  all_goals refine ⟨fun hs => ?_, fun hs hne hpres => ?_, fun he => ?_⟩
  all_goals by_cases hmem : GenKeyFilename c key ∈ st.locks
  all_goals simp_all [fsRead_listPut_other, fsRead_fsRemove_other,
    fsRead_fsEnsure_other, fsRead_listPut_same, fsEnsure_of_present,
    n1.symm, n3.symm, n4.symm, n5.symm]

theorem Set_success_reads (c : Cache) (fl : SetFaults) (now : Nat)
    (st : DiskState) (key : String) (content : List Nat) (d : Nat) :
    ((Set c fl now st key content d).2 = none →
      fsRead (Set c fl now st key content d).1.files (GenKeyFilename c key) =
        some content) ∧
    ((Set c fl now st key content d).2 = none →
      fsRead (Set c fl now st key content d).1.files
          (metadataFilenameFor (GenKeyFilename c key)) =
        some (marshalMetadata
          { Key := key, Filename := GenKeyFilename c key, Set := now,
            Expire := now + d })) := by
  have n1 := genKey_ne_meta c key
  have n3 := genKey_ne_metaTmp c key
  have n5 := meta_ne_metaTmp c key
  unfold Set Set.setLocked
  repeat' split
  all_goals refine ⟨fun hn => ?_, fun hn => ?_⟩
  all_goals by_cases hmem : GenKeyFilename c key ∈ st.locks
  all_goals simp_all [fsRead_listPut_other, fsRead_fsRemove_other,
    fsRead_listPut_same, n1.symm, n3.symm, n5.symm]

theorem Set_lock_contention (c : Cache) (fl : SetFaults) (now : Nat)
    (st : DiskState) (key : String) (content : List Nat) (d : Nat)
    (hdir : c.cacheDir ∈ st.dirs) (hsys : fl.lockSysFail = false)
    (hmem : GenKeyFilename c key ∈ st.locks) :
    Set c fl now st key content d =
      ({ st with files := fsEnsure st.files (GenKeyFilename c key) },
        some .lockNotAcquired) := by
  simp [Set, Set.setLocked, hdir, hsys, hmem]

theorem Set_no_contention (c : Cache) (fl : SetFaults) (now : Nat)
    (st : DiskState) (key : String) (content : List Nat) (d : Nat)
    (hsys : fl.lockSysFail = false)
    (hmem : GenKeyFilename c key ∉ st.locks) :
    (Set c fl now st key content d).2 ≠ some .lockNotAcquired ∧
    (Set c fl now st key content d).2 ≠ some .lockSysError := by
  unfold Set Set.setLocked
  repeat' split
  all_goals simp_all

/-- C3: a successful `Set(key, p, ttl)` followed immediately by `Get(key)`
(no intervening write or sweep) returns exactly `p`, byte for byte; the
metadata sidecar then records `storedAt = now` and `expireAt = now + ttl`.
`Get` does not consult the expiry time, so the read succeeds whenever the
files are intact. -/
theorem c3_round_trip (c : Cache) (fl : SetFaults) (now : Nat)
    (st st' : DiskState) (key : String) (p : List Nat) (d ttl : Nat)
    (h : Set c fl now st key p d = (st', none)) :
    Get c false st' key ttl = .ok p ∧
    fsRead st'.files (metadataFilenameFor (GenKeyFilename c key)) =
      some (marshalMetadata
        { Key := key, Filename := GenKeyFilename c key, Set := now,
          Expire := now + d }) := by
  have h1 : (Set c fl now st key p d).1 = st' := by rw [h]
  have h2 : (Set c fl now st key p d).2 = none := by rw [h]
  have hd := (Set_success_reads c fl now st key p d).1 h2
  have hm := (Set_success_reads c fl now st key p d).2 h2
  rw [h1] at hd hm
  exact ⟨by simp [Get, hd], hm⟩

theorem c3_round_trip_witness :
    Get ⟨"/tmp/sippycache"⟩ false
        (Set ⟨"/tmp/sippycache"⟩ noSetFaults 0 ⟨["/tmp/sippycache"], [], []⟩
          "k" [1, 2] 60).1 "k" 9 = .ok [1, 2] :=
  (c3_round_trip ⟨"/tmp/sippycache"⟩ noSetFaults 0 ⟨["/tmp/sippycache"], [], []⟩
    (Set ⟨"/tmp/sippycache"⟩ noSetFaults 0 ⟨["/tmp/sippycache"], [], []⟩
      "k" [1, 2] 60).1 "k" [1, 2] 60 9 (by decide)).1

end disk

namespace disk

/-- C6: `Set`'s lock step is try-once and non-blocking: the advisory lock is
scoped to the path `GenKeyFilename key` (the digest-derived sentinel for the
entry; the Go code locks the data file path itself). If that lock is already
held, `Set` returns the lock error at once, having changed nothing but
`flock`'s create-on-open of the lock path; `Set` never returns a lock error
otherwise; and on every exit path the lock set is restored (the deferred
`Unlock` releases anything acquired). -/
theorem c6_try_once_lock (c : Cache) (fl : SetFaults) (now : Nat)
    (st : DiskState) (key : String) (content : List Nat) (d : Nat) :
    (c.cacheDir ∈ st.dirs → fl.lockSysFail = false →
      GenKeyFilename c key ∈ st.locks →
      Set c fl now st key content d =
        ({ st with files := fsEnsure st.files (GenKeyFilename c key) },
          some .lockNotAcquired)) ∧
    (Set c fl now st key content d).1.locks = st.locks ∧
    (fl.lockSysFail = false → GenKeyFilename c key ∉ st.locks →
      (Set c fl now st key content d).2 ≠ some .lockNotAcquired ∧
      (Set c fl now st key content d).2 ≠ some .lockSysError) ∧
    GenKeyFilename c key =
      c.cacheDir ++ "/" ++ ExtractPrefix key ++ sha256Hex key ++ ".json" :=
  ⟨fun hdir hsys hmem => Set_lock_contention c fl now st key content d hdir hsys hmem,
   Set_preserves_locks c fl now st key content d,
   fun hsys hmem => Set_no_contention c fl now st key content d hsys hmem,
   rfl⟩

theorem c6_try_once_lock_witness :
    Set ⟨"/d"⟩ noSetFaults 1
        ⟨["/d"], [], [GenKeyFilename ⟨"/d"⟩ "k"]⟩ "k" [1] 5 =
      ({ dirs := ["/d"],
         files := fsEnsure ([] : List (String × List Nat))
           (GenKeyFilename ⟨"/d"⟩ "k"),
         locks := [GenKeyFilename ⟨"/d"⟩ "k"] }, some .lockNotAcquired) :=
  (c6_try_once_lock ⟨"/d"⟩ noSetFaults 1
    ⟨["/d"], [], [GenKeyFilename ⟨"/d"⟩ "k"]⟩ "k" [1] 5).1
    (by simp) rfl (by simp)

/-- C2 (amended): on every error exit of `Set` the metadata file and the lock
set are unchanged; for every error other than the final metadata-rename
failure the previously stored data file is also unchanged and `Get` still
returns the previous payload; but when the metadata rename fails the data
file has already been atomically replaced, so `Get` returns the new payload
(the original claim fails on that one exit). -/
theorem c2_failed_set_effects (c : Cache) (fl : SetFaults) (now : Nat)
    (st st' : DiskState) (key : String) (content pOld : List Nat) (d ttl : Nat)
    (e : SetErr)
    (hprev : fsRead st.files (GenKeyFilename c key) = some pOld)
    (h : Set c fl now st key content d = (st', some e)) :
    fsRead st'.files (metadataFilenameFor (GenKeyFilename c key)) =
      fsRead st.files (metadataFilenameFor (GenKeyFilename c key)) ∧
    st'.locks = st.locks ∧
    (e ≠ .renameMetaFailed →
      fsRead st'.files (GenKeyFilename c key) = some pOld ∧
      Get c false st' key ttl = .ok pOld) ∧
    (e = .renameMetaFailed → Get c false st' key ttl = .ok content) := by
  have h1 : (Set c fl now st key content d).1 = st' := by rw [h]
  have h2 : (Set c fl now st key content d).2 = some e := by rw [h]
  have hr := Set_err_reads c fl now st key content d
  refine ⟨?_, ?_, fun hne => ?_, fun he => ?_⟩
  · have := hr.1 (by rw [h2]; simp)
    rw [h1] at this
    exact this
  · rw [← h1]
    exact Set_preserves_locks c fl now st key content d
  · have := hr.2.1 (by rw [h2]; simp)
      (by rw [h2]; exact fun hx => hne (by injection hx))
      (by rw [hprev]; rfl)
    rw [h1, hprev] at this
    exact ⟨this, by simp [Get, this]⟩
  · have := hr.2.2 (by rw [h2, he])
    rw [h1] at this
    simp [Get, this]

theorem c2_counterexample_metadata_rename :
    (Set ⟨"/d"⟩ ⟨false, false, false, false, false, true⟩ 1
        (Set ⟨"/d"⟩ noSetFaults 0 ⟨["/d"], [], []⟩ "k" [1] 5).1
        "k" [2] 5).2 = some .renameMetaFailed ∧
    Get ⟨"/d"⟩ false (Set ⟨"/d"⟩ noSetFaults 0 ⟨["/d"], [], []⟩ "k" [1] 5).1
      "k" 7 = .ok [1] ∧
    Get ⟨"/d"⟩ false
        (Set ⟨"/d"⟩ ⟨false, false, false, false, false, true⟩ 1
          (Set ⟨"/d"⟩ noSetFaults 0 ⟨["/d"], [], []⟩ "k" [1] 5).1
          "k" [2] 5).1 "k" 7 = .ok [2] ∧
    Get ⟨"/d"⟩ false
        (Set ⟨"/d"⟩ ⟨false, false, false, false, false, true⟩ 1
          (Set ⟨"/d"⟩ noSetFaults 0 ⟨["/d"], [], []⟩ "k" [1] 5).1
          "k" [2] 5).1 "k" 7 ≠ .ok [1] := by decide

theorem c2_failed_set_effects_witness :
    Get ⟨"/d"⟩ false
        (Set ⟨"/d"⟩ ⟨false, false, true, false, false, false⟩ 1
          (Set ⟨"/d"⟩ noSetFaults 0 ⟨["/d"], [], []⟩ "k" [9] 5).1
          "k" [2] 5).1 "k" 7 = .ok [9] :=
  ((c2_failed_set_effects ⟨"/d"⟩ ⟨false, false, true, false, false, false⟩ 1
      (Set ⟨"/d"⟩ noSetFaults 0 ⟨["/d"], [], []⟩ "k" [9] 5).1
      (Set ⟨"/d"⟩ ⟨false, false, true, false, false, false⟩ 1
        (Set ⟨"/d"⟩ noSetFaults 0 ⟨["/d"], [], []⟩ "k" [9] 5).1 "k" [2] 5).1
      "k" [2] [9] 5 7 .tmpDataWriteFailed (by decide) (by decide)).2.2.1
    (by decide)).2

end disk

/-! ## Behavior of the sweeper -/

namespace disk

theorem cleanupEntry_evs_shape (c : Cache) (fl : SweepFaults) (now : Nat)
    (acc : SweepAcc) (name : String) :
    (cleanupEntry c fl now acc name).evs =
      acc.evs ++ ((cleanupEntry c fl now acc name).evs.drop acc.evs.length) ∧
    ((cleanupEntry c fl now acc name).evs.drop acc.evs.length).all
      (fun ev => !isRelease ev) = true := by
  by_cases h1 : hasSuffix name "-metadata.json" = true
  case neg => simp [cleanupEntry, h1]
  case pos =>
    unfold cleanupEntry
    rw [if_pos h1]
    cases hr : fsRead acc.st.files (c.cacheDir ++ "/" ++ name) with
    | none => simp [hr, List.append_assoc, List.drop_left, isRelease]
    | some content =>
      by_cases h2 : fl.readFileFail (c.cacheDir ++ "/" ++ name) = true
      · simp [hr, h2, List.append_assoc, List.drop_left, isRelease]
      · cases hp : unmarshalMetadata content with
        | none => simp [hr, hp, h2, List.append_assoc, List.drop_left, isRelease]
        | some md =>
          by_cases h3 : md.Expire < now
          · by_cases h4 : fl.lockSysFail (md.Filename ++ ".lock") = true
            · simp [hr, hp, h2, h3, h4, List.append_assoc, List.drop_left,
                isRelease]
            · by_cases h5 : md.Filename ++ ".lock" ∈ acc.st.locks
              · simp [hr, hp, h2, h3, h4, h5, List.append_assoc, List.drop_left,
                  isRelease]
              · simp [hr, hp, h2, h3, h4, h5, List.append_assoc, List.drop_left,
                  isRelease]
          · simp [hr, hp, h2, h3, List.append_assoc, List.drop_left, isRelease]

theorem cleanupEntry_examines (c : Cache) (fl : SweepFaults) (now : Nat)
    (acc : SweepAcc) (name : String)
    (h1 : hasSuffix name "-metadata.json" = true) :
    SweepEv.examined name ∈ (cleanupEntry c fl now acc name).evs := by
  unfold cleanupEntry
  rw [if_pos h1]
  cases hr : fsRead acc.st.files (c.cacheDir ++ "/" ++ name) with
  | none => simp [hr]
  | some content =>
    by_cases h2 : fl.readFileFail (c.cacheDir ++ "/" ++ name) = true
    · simp [hr, h2]
    · cases hp : unmarshalMetadata content with
      | none => simp [hr, hp, h2]
      | some md =>
        by_cases h3 : md.Expire < now
        · by_cases h4 : fl.lockSysFail (md.Filename ++ ".lock") = true
          · simp [hr, hp, h2, h3, h4]
          · by_cases h5 : md.Filename ++ ".lock" ∈ acc.st.locks
            · simp [hr, hp, h2, h3, h4, h5]
            · simp [hr, hp, h2, h3, h4, h5]
        · simp [hr, hp, h2, h3]

theorem foldl_cleanupEntry_evs (c : Cache) (fl : SweepFaults) (now : Nat)
    (names : List String) :
    ∀ acc : SweepAcc, ∃ t,
      (names.foldl (cleanupEntry c fl now) acc).evs = acc.evs ++ t ∧
      t.all (fun ev => !isRelease ev) = true := by
  induction names with
  | nil => exact fun acc => ⟨[], by simp, rfl⟩
  | cons n ns ih =>
    intro acc
    obtain ⟨t1, ht1, ha1⟩ := ih (cleanupEntry c fl now acc n)
    obtain ⟨heq, hall⟩ := cleanupEntry_evs_shape c fl now acc n
    refine ⟨(cleanupEntry c fl now acc n).evs.drop acc.evs.length ++ t1, ?_, ?_⟩
    · rw [List.foldl_cons, ht1, ← List.append_assoc, ← heq]
    · simp only [List.all_append, hall, ha1, Bool.and_self]

theorem foldl_cleanupEntry_examines (c : Cache) (fl : SweepFaults) (now : Nat)
    (names : List String) :
    ∀ acc : SweepAcc, ∀ name ∈ names, hasSuffix name "-metadata.json" = true →
      SweepEv.examined name ∈ (names.foldl (cleanupEntry c fl now) acc).evs := by
  induction names with
  | nil => simp
  | cons n ns ih =>
    intro acc name hmem hsuf
    rw [List.foldl_cons]
    rcases List.mem_cons.mp hmem with he | he
    · subst he
      obtain ⟨t1, ht1, _⟩ := foldl_cleanupEntry_evs c fl now ns
        (cleanupEntry c fl now acc name)
      rw [ht1]
      exact List.mem_append_left _ (cleanupEntry_examines c fl now acc name hsuf)
    · exact ih _ name he hsuf

theorem runDefers_evs (fl : SweepFaults) (defers : List String) :
    ∀ st evs, ∃ t, (runDefers fl (st, evs) defers).2 = evs ++ t ∧
      t.all isRelease = true := by
  induction defers with
  | nil => exact fun st evs => ⟨[], by simp [runDefers], rfl⟩
  | cons lf rest ih =>
    intro st evs
    obtain ⟨t1, ht1, ha1⟩ := ih
      { { st with locks := st.locks.erase lf } with
        files := (tryRemove fl { st with locks := st.locks.erase lf }.files lf).1 }
      (evs ++ [SweepEv.released lf,
        SweepEv.removedLockFile lf (tryRemove fl st.files lf).2])
    refine ⟨[SweepEv.released lf,
      SweepEv.removedLockFile lf (tryRemove fl st.files lf).2] ++ t1, ?_, ?_⟩
    · rw [runDefers, ← List.append_assoc] at *
      exact ht1
    · simp only [List.all_append, ha1, List.all_cons, List.all_nil, isRelease,
        Bool.and_self, Bool.and_true]

theorem cleanupEntry_not_expired (c : Cache) (fl : SweepFaults) (now : Nat)
    (acc : SweepAcc) (name : String) (content : List Nat)
    (md : cacheKeyFileMetadata)
    (h1 : hasSuffix name "-metadata.json" = true)
    (hr : fsRead acc.st.files (c.cacheDir ++ "/" ++ name) = some content)
    (h2 : fl.readFileFail (c.cacheDir ++ "/" ++ name) = false)
    (hp : unmarshalMetadata content = some md)
    (h3 : ¬ md.Expire < now) :
    cleanupEntry c fl now acc name =
      { acc with evs := acc.evs ++ [SweepEv.examined name,
          SweepEv.notExpired (c.cacheDir ++ "/" ++ name)] } := by
  simp [cleanupEntry, h1, hr, h2, hp, h3]

theorem cleanupEntry_corrupt (c : Cache) (fl : SweepFaults) (now : Nat)
    (acc : SweepAcc) (name : String) (content : List Nat)
    (h1 : hasSuffix name "-metadata.json" = true)
    (hr : fsRead acc.st.files (c.cacheDir ++ "/" ++ name) = some content)
    (h2 : fl.readFileFail (c.cacheDir ++ "/" ++ name) = false)
    (hp : unmarshalMetadata content = none) :
    cleanupEntry c fl now acc name =
      { acc with evs := acc.evs ++ [SweepEv.examined name,
          SweepEv.parseFailed (c.cacheDir ++ "/" ++ name)] } := by
  simp [cleanupEntry, h1, hr, h2, hp]

theorem cleanupEntry_expired_acquires (c : Cache) (fl : SweepFaults) (now : Nat)
    (acc : SweepAcc) (name : String) (content : List Nat)
    (md : cacheKeyFileMetadata)
    (h1 : hasSuffix name "-metadata.json" = true)
    (hr : fsRead acc.st.files (c.cacheDir ++ "/" ++ name) = some content)
    (h2 : fl.readFileFail (c.cacheDir ++ "/" ++ name) = false)
    (hp : unmarshalMetadata content = some md)
    (h3 : md.Expire < now)
    (h4 : fl.lockSysFail (md.Filename ++ ".lock") = false)
    (h5 : md.Filename ++ ".lock" ∉ acc.st.locks) :
    cleanupEntry c fl now acc name =
      { st := { acc.st with
            files := (tryRemove fl
              (tryRemove fl (fsEnsure acc.st.files (md.Filename ++ ".lock"))
                md.Filename).1 (c.cacheDir ++ "/" ++ name)).1,
            locks := (md.Filename ++ ".lock") :: acc.st.locks },
        evs := acc.evs ++ [SweepEv.examined name,
          SweepEv.removedData md.Filename
            (tryRemove fl (fsEnsure acc.st.files (md.Filename ++ ".lock"))
              md.Filename).2,
          SweepEv.removedMeta (c.cacheDir ++ "/" ++ name)
            (tryRemove fl
              (tryRemove fl (fsEnsure acc.st.files (md.Filename ++ ".lock"))
                md.Filename).1 (c.cacheDir ++ "/" ++ name)).2],
        defers := (md.Filename ++ ".lock") :: acc.defers } := by
  simp [cleanupEntry, h1, hr, h2, hp, h3, h4, h5]

theorem cleanup_trace_split (c : Cache) (fl : SweepFaults) (now : Nat)
    (st : DiskState) (hrd : fl.readDirFail = false) :
    ∃ t1 t2, (cleanup c fl now st).2 = t1 ++ t2 ∧
      t1.all (fun ev => !isRelease ev) = true ∧ t2.all isRelease = true := by
  obtain ⟨t0, ht0, ha0⟩ :=
    foldl_cleanupEntry_evs c fl now (dirList c st.files) ⟨st, [], []⟩
  obtain ⟨t2, ht2, ha2⟩ := runDefers_evs fl
    ((dirList c st.files).foldl (cleanupEntry c fl now) ⟨st, [], []⟩).defers
    ((dirList c st.files).foldl (cleanupEntry c fl now) ⟨st, [], []⟩).st
    ((dirList c st.files).foldl (cleanupEntry c fl now) ⟨st, [], []⟩).evs
  refine ⟨t0, t2, ?_, ha0, ha2⟩
  simp only [cleanup, hrd, Bool.false_eq_true, if_false]
  rw [ht2, ht0]
  simp

theorem cleanup_examines (c : Cache) (fl : SweepFaults) (now : Nat)
    (st : DiskState) (name : String) (hrd : fl.readDirFail = false)
    (hmem : name ∈ dirList c st.files)
    (hsuf : hasSuffix name "-metadata.json" = true) :
    SweepEv.examined name ∈ (cleanup c fl now st).2 := by
  obtain ⟨t2, ht2, _⟩ := runDefers_evs fl
    ((dirList c st.files).foldl (cleanupEntry c fl now) ⟨st, [], []⟩).defers
    ((dirList c st.files).foldl (cleanupEntry c fl now) ⟨st, [], []⟩).st
    ((dirList c st.files).foldl (cleanupEntry c fl now) ⟨st, [], []⟩).evs
  simp only [cleanup, hrd, Bool.false_eq_true, if_false]
  rw [ht2]
  exact List.mem_append_left _
    (foldl_cleanupEntry_examines c fl now (dirList c st.files) ⟨st, [], []⟩
      name hmem hsuf)

end disk

namespace disk

/-- C7 (amended): per sweep tick and per metadata entry that parses, the
sweeper deletes only when `now` is strictly after `expireAt`; on successful
lock acquisition it deletes the data file and then the metadata file during
that entry's own loop iteration (so before any later entry is examined); but
the release and removal of the lock sentinel are registered with `defer`
inside the loop, so they all run at the end of the sweep — after every entry
has been examined, in reverse acquisition order — not before the next entry;
delete errors are recorded per entry and the sweep still examines every
metadata entry of the listing. -/
theorem c7_sweep_tick_behavior (c : Cache) (fl : SweepFaults) (now : Nat) :
    (∀ acc name content md,
      hasSuffix name "-metadata.json" = true →
      fsRead acc.st.files (c.cacheDir ++ "/" ++ name) = some content →
      fl.readFileFail (c.cacheDir ++ "/" ++ name) = false →
      unmarshalMetadata content = some md → ¬ md.Expire < now →
      cleanupEntry c fl now acc name =
        { acc with evs := acc.evs ++ [SweepEv.examined name,
            SweepEv.notExpired (c.cacheDir ++ "/" ++ name)] }) ∧
    (∀ acc name content md,
      hasSuffix name "-metadata.json" = true →
      fsRead acc.st.files (c.cacheDir ++ "/" ++ name) = some content →
      fl.readFileFail (c.cacheDir ++ "/" ++ name) = false →
      unmarshalMetadata content = some md → md.Expire < now →
      fl.lockSysFail (md.Filename ++ ".lock") = false →
      md.Filename ++ ".lock" ∉ acc.st.locks →
      cleanupEntry c fl now acc name =
        { st := { acc.st with
              files := (tryRemove fl
                (tryRemove fl (fsEnsure acc.st.files (md.Filename ++ ".lock"))
                  md.Filename).1 (c.cacheDir ++ "/" ++ name)).1,
              locks := (md.Filename ++ ".lock") :: acc.st.locks },
          evs := acc.evs ++ [SweepEv.examined name,
            SweepEv.removedData md.Filename
              (tryRemove fl (fsEnsure acc.st.files (md.Filename ++ ".lock"))
                md.Filename).2,
            SweepEv.removedMeta (c.cacheDir ++ "/" ++ name)
              (tryRemove fl
                (tryRemove fl (fsEnsure acc.st.files (md.Filename ++ ".lock"))
                  md.Filename).1 (c.cacheDir ++ "/" ++ name)).2],
          defers := (md.Filename ++ ".lock") :: acc.defers }) ∧
    (∀ st : DiskState, fl.readDirFail = false →
      ∃ t1 t2, (cleanup c fl now st).2 = t1 ++ t2 ∧
        t1.all (fun ev => !isRelease ev) = true ∧ t2.all isRelease = true) ∧
    (∀ (st : DiskState) name, fl.readDirFail = false →
      name ∈ dirList c st.files → hasSuffix name "-metadata.json" = true →
      SweepEv.examined name ∈ (cleanup c fl now st).2) :=
  ⟨fun acc name content md h1 hr h2 hp h3 =>
      cleanupEntry_not_expired c fl now acc name content md h1 hr h2 hp h3,
   fun acc name content md h1 hr h2 hp h3 h4 h5 =>
      cleanupEntry_expired_acquires c fl now acc name content md h1 hr h2 hp
        h3 h4 h5,
   fun st hrd => cleanup_trace_split c fl now st hrd,
   fun st name hrd hmem hsuf => cleanup_examines c fl now st name hrd hmem hsuf⟩

theorem c7_counterexample_deferred_release :
    (cleanup ⟨"/d"⟩ noSweepFaults 5
        ⟨["/d"], [("/d/a.json", [10]),
          ("/d/a-metadata.json", marshalMetadata ⟨"a", "/d/a.json", 0, 1⟩),
          ("/d/b.json", [11]),
          ("/d/b-metadata.json", marshalMetadata ⟨"b", "/d/b.json", 0, 1⟩)],
          []⟩).2 =
      [SweepEv.examined "a-metadata.json", SweepEv.removedData "/d/a.json" true,
       SweepEv.removedMeta "/d/a-metadata.json" true,
       SweepEv.examined "b-metadata.json", SweepEv.removedData "/d/b.json" true,
       SweepEv.removedMeta "/d/b-metadata.json" true,
       SweepEv.released "/d/b.json.lock",
       SweepEv.removedLockFile "/d/b.json.lock" true,
       SweepEv.released "/d/a.json.lock",
       SweepEv.removedLockFile "/d/a.json.lock" true] ∧
    (cleanup ⟨"/d"⟩ noSweepFaults 5
        ⟨["/d"], [("/d/a.json", [10]),
          ("/d/a-metadata.json", marshalMetadata ⟨"a", "/d/a.json", 0, 1⟩),
          ("/d/b.json", [11]),
          ("/d/b-metadata.json", marshalMetadata ⟨"b", "/d/b.json", 0, 1⟩)],
          []⟩).2.indexOf (SweepEv.examined "b-metadata.json") <
      (cleanup ⟨"/d"⟩ noSweepFaults 5
        ⟨["/d"], [("/d/a.json", [10]),
          ("/d/a-metadata.json", marshalMetadata ⟨"a", "/d/a.json", 0, 1⟩),
          ("/d/b.json", [11]),
          ("/d/b-metadata.json", marshalMetadata ⟨"b", "/d/b.json", 0, 1⟩)],
          []⟩).2.indexOf (SweepEv.released "/d/a.json.lock") := by
  decide

theorem c7_sweep_tick_behavior_witness :
    cleanupEntry ⟨"/d"⟩ noSweepFaults 5
        ⟨⟨["/d"],
          [("/d/a-metadata.json", marshalMetadata ⟨"a", "/d/a.json", 0, 9⟩)],
          []⟩, [], []⟩ "a-metadata.json" =
      { st := ⟨["/d"],
          [("/d/a-metadata.json", marshalMetadata ⟨"a", "/d/a.json", 0, 9⟩)],
          []⟩,
        evs := [SweepEv.examined "a-metadata.json",
          SweepEv.notExpired "/d/a-metadata.json"],
        defers := [] } :=
  (c7_sweep_tick_behavior ⟨"/d"⟩ noSweepFaults 5).1
    ⟨⟨["/d"], [("/d/a-metadata.json", marshalMetadata ⟨"a", "/d/a.json", 0, 9⟩)],
      []⟩, [], []⟩
    "a-metadata.json" (marshalMetadata ⟨"a", "/d/a.json", 0, 9⟩)
    ⟨"a", "/d/a.json", 0, 9⟩ (by decide) (by decide) rfl (by decide) (by decide)

/-- C8: a metadata sidecar whose bytes do not parse is skipped by the
sweeper: its loop iteration changes no file, no lock and no deferred action —
in particular the paired data file is not deleted — and the sweep goes on to
examine every other metadata entry; a `Get` for the key still returns the
payload whenever the data file is intact, whatever the metadata bytes. -/
theorem c8_corrupt_metadata_resilience (c : Cache) (fl : SweepFaults)
    (now : Nat) :
    (∀ acc name content,
      hasSuffix name "-metadata.json" = true →
      fsRead acc.st.files (c.cacheDir ++ "/" ++ name) = some content →
      fl.readFileFail (c.cacheDir ++ "/" ++ name) = false →
      unmarshalMetadata content = none →
      cleanupEntry c fl now acc name =
        { acc with evs := acc.evs ++ [SweepEv.examined name,
            SweepEv.parseFailed (c.cacheDir ++ "/" ++ name)] }) ∧
    (∀ (st : DiskState) name, fl.readDirFail = false →
      name ∈ dirList c st.files → hasSuffix name "-metadata.json" = true →
      SweepEv.examined name ∈ (cleanup c fl now st).2) ∧
    (∀ (st : DiskState) key p ttl,
      fsRead st.files (GenKeyFilename c key) = some p →
      Get c false st key ttl = .ok p) :=
  ⟨fun acc name content h1 hr h2 hp =>
      cleanupEntry_corrupt c fl now acc name content h1 hr h2 hp,
   fun st name hrd hmem hsuf => cleanup_examines c fl now st name hrd hmem hsuf,
   fun st key p ttl hp => by simp [Get, hp]⟩

theorem c8_corrupt_metadata_resilience_witness :
    cleanupEntry ⟨"/d"⟩ noSweepFaults 99
        ⟨⟨["/d"], [("/d/x.json", [9]), ("/d/x-metadata.json", [7, 7, 7])], []⟩,
          [], []⟩ "x-metadata.json" =
      { st := ⟨["/d"], [("/d/x.json", [9]), ("/d/x-metadata.json", [7, 7, 7])],
          []⟩,
        evs := [SweepEv.examined "x-metadata.json",
          SweepEv.parseFailed "/d/x-metadata.json"],
        defers := [] } ∧
    Get ⟨"/d"⟩ false
      ⟨["/d"], [(GenKeyFilename ⟨"/d"⟩ "k", [9]),
        (metadataFilenameFor (GenKeyFilename ⟨"/d"⟩ "k"), [7, 7, 7])], []⟩
      "k" 3 = .ok [9] :=
  ⟨(c8_corrupt_metadata_resilience ⟨"/d"⟩ noSweepFaults 99).1
      ⟨⟨["/d"], [("/d/x.json", [9]), ("/d/x-metadata.json", [7, 7, 7])], []⟩,
        [], []⟩
      "x-metadata.json" [7, 7, 7] (by decide) (by decide) rfl (by decide),
   (c8_corrupt_metadata_resilience ⟨"/d"⟩ noSweepFaults 99).2.2
      ⟨["/d"], [(GenKeyFilename ⟨"/d"⟩ "k", [9]),
        (metadataFilenameFor (GenKeyFilename ⟨"/d"⟩ "k"), [7, 7, 7])], []⟩
      "k" [9] 3 (by decide)⟩

/-- C1: the claim fails on the code — `Set` locks the data file path itself
(`flock.New(filename)`) while the sweeper locks the distinct path
`metadata.Filename + ".lock"`, so the two never contend. In the state an
in-progress `Set("k")` produces (its lock on `GenKeyFilename "k"` held, shown
by the first conjunct: a second `Set` cannot acquire it), a sweep tick that
finds the entry expired still acquires its own sentinel and deletes the data
and metadata files, with the writer's lock still held afterwards. -/
theorem c1_sweeper_deletes_despite_set_lock :
    (Set ⟨"/d"⟩ noSetFaults 10
        ⟨["/d"], [(GenKeyFilename ⟨"/d"⟩ "k", [7]),
          (metadataFilenameFor (GenKeyFilename ⟨"/d"⟩ "k"),
            marshalMetadata ⟨"k", GenKeyFilename ⟨"/d"⟩ "k", 0, 5⟩)],
          [GenKeyFilename ⟨"/d"⟩ "k"]⟩ "k" [9] 5).2 =
      some SetErr.lockNotAcquired ∧
    fsRead (cleanup ⟨"/d"⟩ noSweepFaults 10
        ⟨["/d"], [(GenKeyFilename ⟨"/d"⟩ "k", [7]),
          (metadataFilenameFor (GenKeyFilename ⟨"/d"⟩ "k"),
            marshalMetadata ⟨"k", GenKeyFilename ⟨"/d"⟩ "k", 0, 5⟩)],
          [GenKeyFilename ⟨"/d"⟩ "k"]⟩).1.files (GenKeyFilename ⟨"/d"⟩ "k") =
      none ∧
    SweepEv.removedData (GenKeyFilename ⟨"/d"⟩ "k") true ∈
      (cleanup ⟨"/d"⟩ noSweepFaults 10
        ⟨["/d"], [(GenKeyFilename ⟨"/d"⟩ "k", [7]),
          (metadataFilenameFor (GenKeyFilename ⟨"/d"⟩ "k"),
            marshalMetadata ⟨"k", GenKeyFilename ⟨"/d"⟩ "k", 0, 5⟩)],
          [GenKeyFilename ⟨"/d"⟩ "k"]⟩).2 ∧
    (cleanup ⟨"/d"⟩ noSweepFaults 10
        ⟨["/d"], [(GenKeyFilename ⟨"/d"⟩ "k", [7]),
          (metadataFilenameFor (GenKeyFilename ⟨"/d"⟩ "k"),
            marshalMetadata ⟨"k", GenKeyFilename ⟨"/d"⟩ "k", 0, 5⟩)],
          [GenKeyFilename ⟨"/d"⟩ "k"]⟩).1.locks = [GenKeyFilename ⟨"/d"⟩ "k"] := by
  decide

end disk
